import Mathlib

/-!
# A browser-resident file repository (`script.js`)

Shallow embedding of the object-store helpers (`openDB`, `addFileEntry`,
`getAllFiles`, `deleteFile`, `clearAllFiles`), of the upload loop
`handleFilesUpload`, of the filter step of `renderList`, of the two
object-URL consumers `downloadFile` and `previewImage`, and of
`cryptoRandomId`.

Conventions of the embedding.
* A JavaScript string is a Lean `String` (a well-formed sequence of code
  points); where the host compares or slices by UTF-16 code unit the code
  units are computed explicitly (`codeUnits`).
* `Date.now()` readings are integers (`Int`).
* A promise is an `Except DOMException α`: `.ok v` is `res(v)`, `.error e`
  is `rej(e)`.
* The IndexedDB object store created in `openDB` with `keyPath: 'id'` is a
  list of records kept in ascending key order, which is the order in which
  `IDBObjectStore.getAll()` reports them.
-/

namespace GDrive

/-! ## Strings and keys -/

/-- UTF-16 code units of one code point. -/
def charUnits (c : Char) : List Nat :=
  if c.toNat < 0x10000 then [c.toNat]
  else [0xD800 + (c.toNat - 0x10000) / 0x400, 0xDC00 + (c.toNat - 0x10000) % 0x400]

/-- UTF-16 code units of a list of code points. -/
def unitsOfChars : List Char → List Nat
  | [] => []
  | c :: cs => charUnits c ++ unitsOfChars cs

/-- UTF-16 code units of a string. -/
def codeUnits (s : String) : List Nat := unitsOfChars s.data

/-- Lexicographic comparison of code-unit sequences: the IndexedDB ordering of
two keys of type String. -/
def unitsLt : List Nat → List Nat → Bool
  | _, [] => false
  | [], _ :: _ => true
  | a :: as, b :: bs => if a < b then true else if a = b then unitsLt as bs else false

/-- Key order of the object store: `keyLt a b` when key `a` sorts before `b`. -/
def keyLt (a b : String) : Bool := unitsLt (codeUnits a) (codeUnits b)

/-! ## Data model -/

/-- A browser `File` (a `Blob` with a name): `size` is the byte length. -/
structure File where
  name : String
  type : String
  bytes : List Nat
  deriving DecidableEq, Repr

/-- The `size` getter of a `File`. -/
def File.size (f : File) : Nat := f.bytes.length

/-- The record built in `handleFilesUpload` (lines 113-121). -/
structure FileEntry where
  id : String
  name : String
  size : Nat
  type : String
  createdAt : Int
  blob : File
  deriving DecidableEq, Repr

/-- Errors a request of the object store can fire on `onerror`. -/
inductive DOMException where
  | ConstraintError
  deriving DecidableEq, Repr

deriving instance DecidableEq for Except

/-- The object store `files` (keyPath `id`): records in ascending key order. -/
abbrev ObjectStore := List FileEntry

namespace ObjectStore

/-- Result of `indexedDB.open` on first use: `onupgradeneeded` creates an empty store. -/
def empty : ObjectStore := []

/-- The call `store.get(key)`: the record with that key, `none` for `undefined`. -/
def get (s : ObjectStore) (key : String) : Option FileEntry :=
  s.find? (fun r => r.id == key)

/-- Position a record by key among records in ascending key order. -/
def place (e : FileEntry) : ObjectStore → ObjectStore
  | [] => [e]
  | x :: xs => if keyLt e.id x.id then e :: x :: xs else x :: place e xs

/-- The call `store.add(value)`: fails with `ConstraintError` when a record with
the same key exists, otherwise stores the record. -/
def add (s : ObjectStore) (e : FileEntry) : Except DOMException ObjectStore :=
  if (s.get e.id).isSome then .error .ConstraintError else .ok (place e s)

/-- The call `store.getAll()`: every record, in ascending key order. -/
def getAll (s : ObjectStore) : List FileEntry := s

/-- The call `store.delete(key)`: removes the record with that key if there is
one; the request succeeds either way. -/
def delete (s : ObjectStore) (key : String) : ObjectStore :=
  s.filter (fun r => r.id != key)

/-- The call `store.clear()`. -/
def clear (_s : ObjectStore) : ObjectStore := []

/-- Store invariant: records are in strictly ascending key order. -/
def WF (s : ObjectStore) : Prop := s.Pairwise (fun a b => keyLt a.id b.id = true)

instance (s : ObjectStore) : Decidable (WF s) := by
  unfold WF; infer_instance

end ObjectStore

/-! ## IndexedDB helpers (lines 6-60) -/

/-- Function `openDB` on a fresh origin: the store is created empty. -/
def openDB : Except DOMException ObjectStore := .ok ObjectStore.empty

/-- Function `addFileEntry` (lines 22-30): resolves `true` with the new store, or rejects
with the request error. -/
def addFileEntry (db : ObjectStore) (entry : FileEntry) :
    Except DOMException (Bool × ObjectStore) :=
  match db.add entry with
  | .ok db1 => .ok (true, db1)
  | .error e => .error e

/-- The call `Array.prototype.sort(cmp)`: a stable sort; `a` stays before `b` when
`cmp a b ≤ 0`. -/
def sort {α : Type} (cmp : α → α → Int) (l : List α) : List α :=
  l.insertionSort (fun a b => cmp a b ≤ 0)

/-- Function `getAllFiles` (lines 32-40): `getAll()` sorted with
`(a,b) => b.createdAt - a.createdAt`. -/
def getAllFiles (db : ObjectStore) : Except DOMException (List FileEntry) :=
  .ok (sort (fun a b => b.createdAt - a.createdAt) db.getAll)

/-- Function `deleteFile` (lines 42-50): resolves `true` on `onsuccess`. -/
def deleteFile (db : ObjectStore) (id : String) :
    Except DOMException (Bool × ObjectStore) :=
  .ok (true, db.delete id)

/-- Function `clearAllFiles` (lines 52-60). -/
def clearAllFiles (db : ObjectStore) : Except DOMException (Bool × ObjectStore) :=
  .ok (true, db.clear)

/-- A run of `addFileEntry` calls that all resolve, from left to right. -/
def addAll : ObjectStore → List FileEntry → Except DOMException ObjectStore
  | db, [] => .ok db
  | db, e :: es =>
    match addFileEntry db e with
    | .ok (_, db1) => addAll db1 es
    | .error err => .error err

/-! ## Identifier generation (lines 267-271) -/

/-- The digit of value `d` in `Number.prototype.toString(36)`: `0-9` then `a-z`. -/
def digit36 (d : Nat) : Char :=
  if d < 10 then Char.ofNat (48 + d) else Char.ofNat (87 + d)

/-- Digits of `n` in base 36, most significant first; the first argument bounds
the number of digits produced. -/
def toString36Aux : Nat → Nat → List Char
  | 0, _ => []
  | fuel + 1, n =>
    if n < 36 then [digit36 n] else toString36Aux fuel (n / 36) ++ [digit36 (n % 36)]

/-- The call `n.toString(36)` on a non-negative integer. -/
def toString36 (n : Nat) : String := String.mk (toString36Aux (n + 1) n)

/-- The value of a base-36 digit character. -/
def digitValue36 (c : Char) : Nat :=
  if c.toNat ≤ 57 then c.toNat - 48 else c.toNat - 87

/-- The number written by base-36 digits, most significant first. -/
def parseInt36 (cs : List Char) : Nat :=
  cs.foldl (fun acc c => 36 * acc + digitValue36 c) 0

/-- The call `crypto.getRandomValues(new Uint32Array(4))`: four words of the
random source, each held as an unsigned 32-bit value. -/
def getRandomValues (w : Nat × Nat × Nat × Nat) : List Nat :=
  [w.1 % 2 ^ 32, w.2.1 % 2 ^ 32, w.2.2.1 % 2 ^ 32, w.2.2.2 % 2 ^ 32]

/-- The call `parts.join('')`. -/
def join (parts : List String) : String :=
  String.mk (parts.foldr (fun p acc => p.data ++ acc) [])

/-- The call `s.slice(0, n)` on a string of BMP characters (one code unit each). -/
def slice0 (s : String) (n : Nat) : String := String.mk (s.data.take n)

/-- Function `cryptoRandomId` (lines 267-271). -/
def cryptoRandomId (w : Nat × Nat × Nat × Nat) : String :=
  slice0 (join ((getRandomValues w).map toString36)) 24

/-- Base-36 digit characters: `0-9` and `a-z`. -/
def isBase36Digit (c : Char) : Bool :=
  (48 ≤ c.toNat && c.toNat ≤ 57) || (97 ≤ c.toNat && c.toNat ≤ 122)

/-! ## Upload (lines 109-130) -/

/-- What one iteration of the loop of `handleFilesUpload` reads: the file, the
words drawn by `cryptoRandomId`, and the reading of `Date.now()`. -/
structure Upload where
  file : File
  random : Nat × Nat × Nat × Nat
  now : Int
  deriving DecidableEq, Repr

/-- The object literal of lines 113-121. -/
def mkEntry (u : Upload) : FileEntry where
  id := cryptoRandomId u.random
  name := u.file.name
  size := u.file.size
  type := if u.file.type = "" then "unknown" else u.file.type
  createdAt := u.now
  blob := u.file

/-- Function `handleFilesUpload` (lines 109-130): the store after the loop, and the
messages passed to `alert` by the `catch` branch, in order. -/
def handleFilesUpload : ObjectStore → List Upload → ObjectStore × List String
  | db, [] => (db, [])
  | db, u :: us =>
    match addFileEntry db (mkEntry u) with
    | .ok (_, db1) => handleFilesUpload db1 us
    | .error _ =>
      let r := handleFilesUpload db us
      (r.1, ("Failed to save file: " ++ u.file.name) :: r.2)

/-! ## Listing and search (lines 133-136, 212-215) -/

/-- White space and line terminators removed by `String.prototype.trim`. -/
def isWhiteSpace (c : Char) : Bool :=
  let n := c.toNat
  n = 9 || n = 10 || n = 11 || n = 12 || n = 13 || n = 32 || n = 0xA0 || n = 0x1680 ||
  (0x2000 ≤ n && n ≤ 0x200A) || n = 0x2028 || n = 0x2029 || n = 0x202F || n = 0x205F ||
  n = 0x3000 || n = 0xFEFF

/-- The call `s.trim()`. -/
def trim (s : String) : String :=
  String.mk ((s.data.dropWhile isWhiteSpace).reverse.dropWhile isWhiteSpace).reverse

/-- The call `s.toLowerCase()`: the letters `A-Z` are mapped to `a-z`; code points
outside ASCII, which the host maps by the Unicode tables, are kept as they are.
No proof below depends on which mapping is used. -/
def toLowerCase (s : String) : String := String.mk (s.data.map Char.toLower)

/-- The call `s.includes(q)`: `q` occurs in `s` as a contiguous run. -/
def includes (s q : String) : Bool := decide (q.data <:+: s.data)

/-- What `renderList` shows: the table rows and the two counters. -/
structure Rendered where
  rows : List FileEntry
  totalFiles : Nat
  totalSize : Nat
  deriving DecidableEq, Repr

/-- Function `renderList` (lines 133-216) for the text `searchValue` of the search box. -/
def renderList (db : ObjectStore) (searchValue : String) : Except DOMException Rendered :=
  let q := toLowerCase (trim searchValue)
  match getAllFiles db with
  | .error e => .error e
  | .ok items =>
    let filtered :=
      if q ≠ "" then items.filter (fun it => includes (toLowerCase it.name) q) else items
    match getAllFiles db with
    | .error e => .error e
    | .ok all =>
      .ok ⟨filtered, all.length, all.foldl (fun s i => s + i.size) 0⟩

/-- The rows of `renderList`: the result of the search for `searchValue`. -/
def search (db : ObjectStore) (searchValue : String) : Except DOMException (List FileEntry) :=
  match renderList db searchValue with
  | .ok r => .ok r.rows
  | .error e => .error e

/-! ## Object URLs (lines 219-257) -/

/-- Observable actions of `downloadFile` and `previewImage`, in program order. -/
inductive Effect where
  | alert (msg : String)
  | createObjectURL (url : String) (blob : File)
  | revokeObjectURL (url : String)
  | anchorClick (href : String) (download : String)
  | windowOpen (opened : Bool)
  | documentWrite (html : String)
  | onBeforeUnloadRevoke (url : String)
  deriving DecidableEq, Repr

/-- Function `escapeHtml` (line 273). -/
def escapeHtml (s : String) : String :=
  String.mk (s.data.foldr (fun c acc =>
    (if c = '&' then "&amp;".data
     else if c = '<' then "&lt;".data
     else if c = '>' then "&gt;".data
     else if c.toNat = 34 then "&quot;".data
     else if c.toNat = 39 then "&#39;".data
     else [c]) ++ acc) [])

/-- Function `downloadFile` (lines 219-238), the `onsuccess` handler of `store.get(item.id)`;
`url` is the string returned by `URL.createObjectURL`. -/
def downloadFile (db : ObjectStore) (item : FileEntry) (url : String) : List Effect :=
  match db.get item.id with
  | none => [.alert "File not found"]
  | some rec =>
    [.createObjectURL url rec.blob,
     .anchorClick url (if rec.name = "" then "download" else rec.name),
     .revokeObjectURL url]

/-- Function `previewImage` (lines 241-257), the `onsuccess` handler of `store.get(item.id)`;
`url` is the string returned by `URL.createObjectURL` and `opened` tells whether
`window.open` returned a window. -/
def previewImage (db : ObjectStore) (item : FileEntry) (url : String) (opened : Bool) :
    List Effect :=
  match db.get item.id with
  | none => []
  | some rec =>
    [.createObjectURL url rec.blob, .windowOpen opened] ++
      (if !opened then [.alert "Popup blocked — allow popups to preview."]
       else
        [.documentWrite ("<title>Preview: " ++ escapeHtml rec.name ++ "</title>"),
         .documentWrite ("<img src=\"" ++ url ++
            "\" style=\"max-width:100%;height:auto;display:block;margin:20px auto\">"),
         .onBeforeUnloadRevoke url])

/-- Every object URL created in the trace is revoked later in the trace, or a
callback revoking it is registered on the closing event of the viewing window. -/
def handlesAccounted : List Effect → Bool
  | [] => true
  | .createObjectURL url _ :: rest =>
    (rest.contains (.revokeObjectURL url) || rest.contains (.onBeforeUnloadRevoke url)) &&
      handlesAccounted rest
  | _ :: rest => handlesAccounted rest

/-- The order `Array.prototype.sort` establishes with the comparator of `getAllFiles`. -/
def newestFirst (a b : FileEntry) : Prop := b.createdAt - a.createdAt ≤ 0

instance : DecidableRel newestFirst := fun a b => by
  unfold newestFirst; infer_instance

instance : IsTotal FileEntry newestFirst := ⟨fun a b => by unfold newestFirst; omega⟩

instance : IsTrans FileEntry newestFirst :=
  ⟨fun a b c h1 h2 => by unfold newestFirst at *; omega⟩

/-! ## Concrete records used in the examples -/

/-- A file of `n` zero bytes. -/
def sampleFile (name type : String) (n : Nat) : File := ⟨name, type, List.replicate n 0⟩

/-- The entry "a.txt": 10 bytes, created at t=100. -/
def entryA : FileEntry :=
  ⟨"k1", "a.txt", 10, "text/plain", 100, sampleFile "a.txt" "text/plain" 10⟩

/-- The entry "b.txt": 20 bytes, created at t=200. -/
def entryB : FileEntry :=
  ⟨"k2", "b.txt", 20, "text/plain", 200, sampleFile "b.txt" "text/plain" 20⟩

/-- The entry "c.txt": 5 bytes, created at t=150. -/
def entryC : FileEntry :=
  ⟨"k3", "c.txt", 5, "text/plain", 150, sampleFile "c.txt" "text/plain" 5⟩

/-- A record with key "zz", created at t=100. -/
def tieFirst : FileEntry :=
  ⟨"zz", "first.txt", 1, "text/plain", 100, sampleFile "first.txt" "text/plain" 1⟩

/-- A record with key "aa", created at t=100. -/
def tieSecond : FileEntry :=
  ⟨"aa", "second.txt", 1, "text/plain", 100, sampleFile "second.txt" "text/plain" 1⟩

/-- A record named "Report.PDF". -/
def entryReport : FileEntry :=
  ⟨"r1", "Report.PDF", 3, "application/pdf", 10, sampleFile "Report.PDF" "application/pdf" 3⟩

/-- A record named "image.png". -/
def entryImage : FileEntry :=
  ⟨"i1", "image.png", 4, "image/png", 20, sampleFile "image.png" "image/png" 4⟩

/-- A file "new.txt" with the three bytes 7, 8, 9. -/
def newFile : File := ⟨"new.txt", "text/plain", [7, 8, 9]⟩

/-- An upload of "new.txt" for which the random source returns four zero words. -/
def zeroUpload : Upload := ⟨newFile, (0, 0, 0, 0), 500⟩

/-- A stored record whose key is "0000". -/
def entryZero : FileEntry :=
  ⟨"0000", "old.txt", 2, "text/plain", 50, sampleFile "old.txt" "text/plain" 2⟩

/-- The user actions that change the store. -/
inductive Op where
  | upload (files : List Upload)
  | delete (id : String)
  | clear
  deriving DecidableEq, Repr

/-- The store after one user action: `handleFilesUpload` (change and drop
handlers), `deleteFile` (Delete button), `clearAllFiles` (Clear button). -/
def step (db : ObjectStore) : Op → ObjectStore
  | .upload files => (handleFilesUpload db files).1
  | .delete id =>
    match deleteFile db id with
    | .ok (_, db1) => db1
    | .error _ => db
  | .clear =>
    match clearAllFiles db with
    | .ok (_, db1) => db1
    | .error _ => db

/-- The store reached from the empty store by a sequence of user actions. -/
def run (ops : List Op) : ObjectStore := ops.foldl step ObjectStore.empty

/-! ## The key order is a strict linear order -/

theorem unitsLt_irrefl (a : List Nat) : unitsLt a a = false := by
  induction a with
  | nil => rfl
  | cons x xs ih => simp [unitsLt, ih]

theorem unitsLt_trans (a b c : List Nat) (hab : unitsLt a b = true)
    (hbc : unitsLt b c = true) : unitsLt a c = true := by
  induction a generalizing b c with
  | nil =>
    cases b with
    | nil => simp [unitsLt] at hab
    | cons y ys =>
      cases c with
      | nil => simp [unitsLt] at hbc
      | cons z zs => simp [unitsLt]
  | cons x xs ih =>
    cases b with
    | nil => simp [unitsLt] at hab
    | cons y ys =>
      cases c with
      | nil => simp [unitsLt] at hbc
      | cons z zs =>
        simp only [unitsLt] at hab hbc ⊢
        by_cases hxy : x < y
        · by_cases hyz : y < z
          · simp [show x < z by omega]
          · by_cases hyz2 : y = z
            · subst hyz2; simp [hxy]
            · simp [hyz, hyz2] at hbc
        · by_cases hxy2 : x = y
          · subst hxy2
            simp only [hxy, if_false, if_true] at hab
            by_cases hyz : x < z
            · simp [hyz]
            · by_cases hyz2 : x = z
              · subst hyz2
                simp only [hyz, if_false, if_true] at hbc ⊢
                exact ih ys zs hab hbc
              · simp [hyz, hyz2] at hbc
          · simp [hxy, hxy2] at hab

theorem unitsLt_total (a b : List Nat) (h : a ≠ b) :
    unitsLt a b = true ∨ unitsLt b a = true := by
  induction a generalizing b with
  | nil =>
    cases b with
    | nil => exact absurd rfl h
    | cons y ys => left; simp [unitsLt]
  | cons x xs ih =>
    cases b with
    | nil => right; simp [unitsLt]
    | cons y ys =>
      simp only [unitsLt]
      by_cases hxy : x < y
      · left; simp [hxy]
      · by_cases hyx : y < x
        · right; simp [hyx]
        · have hxy2 : x = y := by omega
          subst hxy2
          have hne : xs ≠ ys := fun hc => h (by rw [hc])
          simpa [hxy] using ih ys hne

theorem char_toNat_valid (c : Char) :
    c.toNat < 0xD800 ∨ (0xDFFF < c.toNat ∧ c.toNat < 0x110000) := c.valid

theorem char_eq_of_toNat_eq {c d : Char} (h : c.toNat = d.toNat) : c = d := by
  apply Char.ext
  apply UInt32.ext
  exact h

theorem unitsOfChars_injective (cs ds : List Char)
    (h : unitsOfChars cs = unitsOfChars ds) : cs = ds := by
  induction cs generalizing ds with
  | nil =>
    cases ds with
    | nil => rfl
    | cons d ds =>
      simp only [unitsOfChars, charUnits] at h
      split at h <;> simp at h
  | cons c cs ih =>
    cases ds with
    | nil =>
      simp only [unitsOfChars, charUnits] at h
      split at h <;> simp at h
    | cons d ds =>
      have hc := char_toNat_valid c
      have hd := char_toNat_valid d
      simp only [unitsOfChars, charUnits] at h
      by_cases h1 : c.toNat < 0x10000 <;> by_cases h2 : d.toNat < 0x10000
      · simp only [h1, h2, if_true, List.cons_append, List.nil_append, List.cons.injEq] at h
        rw [char_eq_of_toNat_eq h.1, ih ds h.2]
      · simp only [h1, h2, if_true, if_false, List.cons_append, List.nil_append,
          List.cons.injEq] at h
        omega
      · simp only [h1, h2, if_true, if_false, List.cons_append, List.nil_append,
          List.cons.injEq] at h
        omega
      · simp only [h1, h2, if_false, List.cons_append, List.nil_append,
          List.cons.injEq] at h
        have : c.toNat = d.toNat := by omega
        rw [char_eq_of_toNat_eq this, ih ds h.2.2]

theorem keyLt_irrefl (a : String) : keyLt a a = false := unitsLt_irrefl _

theorem keyLt_trans {a b c : String} (hab : keyLt a b = true) (hbc : keyLt b c = true) :
    keyLt a c = true := unitsLt_trans _ _ _ hab hbc

theorem keyLt_total {a b : String} (h : a ≠ b) : keyLt a b = true ∨ keyLt b a = true := by
  apply unitsLt_total
  intro hc
  apply h
  have := unitsOfChars_injective _ _ hc
  cases a; cases b; simp_all

theorem keyLt_asymm {a b : String} (hab : keyLt a b = true) : keyLt b a = false := by
  cases hba : keyLt b a with
  | false => rfl
  | true =>
    have := keyLt_trans hab hba
    rw [keyLt_irrefl] at this
    exact absurd this (by simp)

/-! ## Facts about the object store -/

theorem get_eq_none_iff (s : ObjectStore) (k : String) :
    s.get k = none ↔ ∀ r ∈ s, r.id ≠ k := by
  simp [ObjectStore.get, List.find?_eq_none]

theorem place_perm (e : FileEntry) (s : ObjectStore) :
    (ObjectStore.place e s).Perm (e :: s) := by
  induction s with
  | nil => exact List.Perm.refl _
  | cons x xs ih =>
    simp only [ObjectStore.place]
    split
    · exact List.Perm.refl _
    · exact (List.Perm.cons x ih).trans (List.Perm.swap e x xs)

theorem mem_place {e r : FileEntry} {s : ObjectStore} :
    r ∈ ObjectStore.place e s ↔ r = e ∨ r ∈ s := by
  rw [(place_perm e s).mem_iff, List.mem_cons]

theorem place_WF (e : FileEntry) (s : ObjectStore) (hwf : s.WF)
    (hnew : ∀ r ∈ s, r.id ≠ e.id) : (ObjectStore.place e s).WF := by
  induction s with
  | nil => simp [ObjectStore.place, ObjectStore.WF]
  | cons x xs ih =>
    unfold ObjectStore.WF at hwf ih ⊢
    rw [List.pairwise_cons] at hwf
    simp only [ObjectStore.place]
    by_cases hlt : keyLt e.id x.id = true
    · rw [if_pos hlt, List.pairwise_cons, List.pairwise_cons]
      refine ⟨?_, hwf⟩
      intro r hr
      rcases List.mem_cons.1 hr with h | h
      · rw [h]; exact hlt
      · exact keyLt_trans hlt (hwf.1 r h)
    · rw [if_neg hlt, List.pairwise_cons]
      refine ⟨?_, ih hwf.2 (fun r hr => hnew r (List.mem_cons_of_mem _ hr))⟩
      intro r hr
      rcases mem_place.1 hr with h | h
      · rw [h]
        have hne : x.id ≠ e.id := hnew x (List.mem_cons_self _ _)
        rcases keyLt_total hne with h1 | h1
        · exact h1
        · exact absurd h1 hlt
      · exact hwf.1 r h

theorem add_ok_iff (s s1 : ObjectStore) (e : FileEntry) :
    s.add e = .ok s1 ↔ s.get e.id = none ∧ s1 = ObjectStore.place e s := by
  unfold ObjectStore.add
  cases h : s.get e.id with
  | none => simp [eq_comm]
  | some r => simp

theorem addFileEntry_ok_iff (db db1 : ObjectStore) (e : FileEntry) (b : Bool) :
    addFileEntry db e = .ok (b, db1) ↔
      b = true ∧ db.get e.id = none ∧ db1 = ObjectStore.place e db := by
  unfold addFileEntry
  cases h : db.add e with
  | error err =>
    have hn : ¬ (db.get e.id = none ∧ db1 = ObjectStore.place e db) := by
      intro hc
      have := (add_ok_iff db db1 e).2 hc
      rw [h] at this
      cases this
    simp [hn]
  | ok s1 =>
    have h1 := (add_ok_iff db s1 e).1 h
    simp only [Except.ok.injEq, Prod.mk.injEq]
    constructor
    · rintro ⟨hb, hs⟩
      exact ⟨hb.symm, h1.1, by rw [← hs]; exact h1.2⟩
    · rintro ⟨hb, _, hs⟩
      exact ⟨hb.symm, by rw [hs]; exact h1.2⟩

theorem addFileEntry_error_iff (db : ObjectStore) (e : FileEntry) (err : DOMException) :
    addFileEntry db e = .error err ↔ (db.get e.id).isSome = true := by
  unfold addFileEntry ObjectStore.add
  cases h : db.get e.id with
  | none => simp
  | some r => cases err; simp

theorem addAll_perm (db db1 : ObjectStore) (es : List FileEntry)
    (h : addAll db es = .ok db1) : db1.Perm (es ++ db) := by
  induction es generalizing db with
  | nil =>
    simp only [addAll, Except.ok.injEq] at h
    rw [h]; exact List.Perm.refl _
  | cons e es ih =>
    simp only [addAll] at h
    cases hadd : addFileEntry db e with
    | error err => rw [hadd] at h; cases h
    | ok r =>
      obtain ⟨b, db2⟩ := r
      rw [hadd] at h
      have h2 := ih db2 h
      have h3 := (addFileEntry_ok_iff db db2 e b).1 hadd
      rw [h3.2.2] at h2
      refine h2.trans ?_
      refine (List.Perm.append_left es (place_perm e db)).trans ?_
      exact List.perm_middle

theorem addAll_WF (db db1 : ObjectStore) (es : List FileEntry) (hwf : db.WF)
    (h : addAll db es = .ok db1) : db1.WF := by
  induction es generalizing db with
  | nil =>
    simp only [addAll, Except.ok.injEq] at h
    rw [← h]; exact hwf
  | cons e es ih =>
    simp only [addAll] at h
    cases hadd : addFileEntry db e with
    | error err => rw [hadd] at h; cases h
    | ok r =>
      obtain ⟨b, db2⟩ := r
      rw [hadd] at h
      have h3 := (addFileEntry_ok_iff db db2 e b).1 hadd
      apply ih db2 _ h
      rw [h3.2.2]
      exact place_WF e db hwf ((get_eq_none_iff db e.id).1 h3.2.1)

theorem WF_nodup_ids (s : ObjectStore) (hwf : s.WF) : (s.map (fun r => r.id)).Nodup := by
  unfold ObjectStore.WF at hwf
  rw [List.Nodup, List.pairwise_map]
  refine hwf.imp ?_
  intro a b hab heq
  rw [heq, keyLt_irrefl] at hab
  exact absurd hab (by simp)

theorem getAllFiles_eq (db : ObjectStore) :
    getAllFiles db = .ok (db.insertionSort newestFirst) := rfl

theorem pair_sublist_of_WF (db : ObjectStore) (hwf : db.WF) (a b : FileEntry)
    (ha : a ∈ db) (hb : b ∈ db) (hk : keyLt a.id b.id = true) : List.Sublist [a, b] db := by
  induction db with
  | nil => cases ha
  | cons x xs ih =>
    unfold ObjectStore.WF at hwf ih
    rw [List.pairwise_cons] at hwf
    rcases List.mem_cons.1 ha with hax | hax
    · rcases List.mem_cons.1 hb with hbx | hbx
      · rw [hax, hbx, keyLt_irrefl] at hk
        exact absurd hk (by simp)
      · rw [hax]
        exact List.Sublist.cons₂ x (List.singleton_sublist.2 hbx)
    · rcases List.mem_cons.1 hb with hbx | hbx
      · have h1 := hwf.1 a hax
        rw [← hbx] at h1
        rw [keyLt_asymm hk] at h1
        exact absurd h1 (by simp)
      · exact List.Sublist.cons x (ih hwf.2 hax hbx)

theorem get_place (e : FileEntry) (s : ObjectStore) (hnew : ∀ r ∈ s, r.id ≠ e.id) :
    (ObjectStore.place e s).get e.id = some e := by
  induction s with
  | nil => simp [ObjectStore.place, ObjectStore.get]
  | cons x xs ih =>
    have hx : x.id ≠ e.id := hnew x (List.mem_cons_self _ _)
    have ih1 := ih (fun r hr => hnew r (List.mem_cons_of_mem _ hr))
    simp only [ObjectStore.place]
    split
    · simp [ObjectStore.get]
    · simp only [ObjectStore.get] at ih1 ⊢
      rw [List.find?_cons_of_neg _ (by simpa using hx)]
      exact ih1

theorem get_delete_self (s : ObjectStore) (k : String) : (s.delete k).get k = none := by
  rw [get_eq_none_iff]
  intro r hr
  simp only [ObjectStore.delete, List.mem_filter] at hr
  simpa using hr.2

theorem get_delete_other (s : ObjectStore) (k j : String) (h : j ≠ k) :
    (s.delete k).get j = s.get j := by
  induction s with
  | nil => rfl
  | cons x xs ih =>
    simp only [ObjectStore.delete, ObjectStore.get] at ih ⊢
    by_cases hx : x.id = k
    · have hxj : ¬ x.id = j := fun hc => h (hc.symm.trans hx)
      rw [List.filter_cons_of_neg (by simpa using hx),
        List.find?_cons_of_neg _ (by simpa using hxj)]
      exact ih
    · rw [List.filter_cons_of_pos (by simpa using hx)]
      by_cases hxj : x.id = j
      · rw [List.find?_cons_of_pos _ (by simpa using hxj),
          List.find?_cons_of_pos _ (by simpa using hxj)]
      · rw [List.find?_cons_of_neg _ (by simpa using hxj),
          List.find?_cons_of_neg _ (by simpa using hxj)]
        exact ih

theorem delete_absent (s : ObjectStore) (k : String) (h : s.get k = none) :
    s.delete k = s := by
  rw [get_eq_none_iff] at h
  simp only [ObjectStore.delete, List.filter_eq_self]
  intro r hr
  simpa using h r hr

theorem delete_WF (s : ObjectStore) (k : String) (hwf : s.WF) : (s.delete k).WF := by
  unfold ObjectStore.WF at hwf ⊢
  exact hwf.sublist (List.filter_sublist s)

theorem delete_length (s : ObjectStore) (k : String) (hwf : s.WF) :
    (s.delete k).length + (if (s.get k).isSome then 1 else 0) = s.length := by
  induction s with
  | nil => rfl
  | cons x xs ih =>
    unfold ObjectStore.WF at hwf ih
    rw [List.pairwise_cons] at hwf
    by_cases hx : x.id = k
    · have habs : ObjectStore.get xs k = none := by
        rw [get_eq_none_iff]
        intro r hr hrk
        have h1 := hwf.1 r hr
        rw [hx, hrk, keyLt_irrefl] at h1
        exact absurd h1 (by simp)
      have hd : ObjectStore.delete (x :: xs) k = ObjectStore.delete xs k := by
        simp only [ObjectStore.delete]
        rw [List.filter_cons_of_neg (by simpa using hx)]
      have hg : ObjectStore.get (x :: xs) k = some x := by
        simp only [ObjectStore.get]
        rw [List.find?_cons_of_pos _ (by simpa using hx)]
      rw [hd, hg, delete_absent xs k habs]
      simp
    · have hd : ObjectStore.delete (x :: xs) k = x :: ObjectStore.delete xs k := by
        simp only [ObjectStore.delete]
        rw [List.filter_cons_of_pos (by simpa using hx)]
      have hg : ObjectStore.get (x :: xs) k = ObjectStore.get xs k := by
        simp only [ObjectStore.get]
        rw [List.find?_cons_of_neg _ (by simpa using hx)]
      rw [hd, hg, List.length_cons, List.length_cons]
      have := ih hwf.2
      omega

theorem handleFilesUpload_WF (db : ObjectStore) (us : List Upload) (hwf : db.WF) :
    (handleFilesUpload db us).1.WF := by
  induction us generalizing db with
  | nil => exact hwf
  | cons u us ih =>
    simp only [handleFilesUpload]
    cases hadd : addFileEntry db (mkEntry u) with
    | error err => exact ih db hwf
    | ok r =>
      obtain ⟨b, db1⟩ := r
      have h3 := (addFileEntry_ok_iff db db1 (mkEntry u) b).1 hadd
      apply ih db1
      rw [h3.2.2]
      exact place_WF _ db hwf ((get_eq_none_iff db _).1 h3.2.1)

theorem step_WF (db : ObjectStore) (op : Op) (hwf : db.WF) : (step db op).WF := by
  cases op with
  | upload files => exact handleFilesUpload_WF db files hwf
  | delete id => exact delete_WF db id hwf
  | clear => exact List.Pairwise.nil

theorem foldl_step_WF (ops : List Op) (db : ObjectStore) (hwf : db.WF) :
    (ops.foldl step db).WF := by
  induction ops generalizing db with
  | nil => exact hwf
  | cons op ops ih => exact ih (step db op) (step_WF db op hwf)

theorem run_WF (ops : List Op) : (run ops).WF :=
  foldl_step_WF ops ObjectStore.empty List.Pairwise.nil

theorem digit36_isBase36 : ∀ d, d < 36 → isBase36Digit (digit36 d) = true := by
  decide

theorem digitValue36_digit36 : ∀ d, d < 36 → digitValue36 (digit36 d) = d := by
  decide

theorem parseInt36_append (l : List Char) (c : Char) :
    parseInt36 (l ++ [c]) = 36 * parseInt36 l + digitValue36 c := by
  simp [parseInt36, List.foldl_append]

theorem parseInt36_toString36Aux (fuel n : Nat) (h : n < fuel) :
    parseInt36 (toString36Aux fuel n) = n := by
  induction fuel generalizing n with
  | zero => omega
  | succ fuel ih =>
    simp only [toString36Aux]
    split
    · rename_i hlt
      simp [parseInt36, digitValue36_digit36 n hlt]
    · rw [parseInt36_append, ih (n / 36) (by omega),
        digitValue36_digit36 _ (Nat.mod_lt _ (by decide))]
      exact Nat.div_add_mod n 36

/-- The digits produced by `toString36` write the number itself: the bound on the
number of digits is never reached. -/
theorem parseInt36_toString36 (n : Nat) : parseInt36 (toString36 n).data = n :=
  parseInt36_toString36Aux (n + 1) n (Nat.lt_succ_self n)

theorem toString36Aux_digits (fuel n : Nat) :
    ∀ c ∈ toString36Aux fuel n, isBase36Digit c = true := by
  induction fuel generalizing n with
  | zero => intro c hc; simp [toString36Aux] at hc
  | succ fuel ih =>
    intro c hc
    simp only [toString36Aux] at hc
    split at hc
    · rename_i hlt
      rw [List.mem_singleton] at hc
      rw [hc]; exact digit36_isBase36 n hlt
    · rcases List.mem_append.1 hc with h | h
      · exact ih _ c h
      · rw [List.mem_singleton] at h
        rw [h]; exact digit36_isBase36 _ (Nat.mod_lt _ (by decide))

theorem toString36Aux_length_pos (fuel n : Nat) :
    1 ≤ (toString36Aux (fuel + 1) n).length := by
  simp only [toString36Aux]
  split <;> simp

theorem toString36Aux_length_le (fuel n k : Nat) (hn : n < 36 ^ (k + 1)) :
    (toString36Aux fuel n).length ≤ k + 1 := by
  induction fuel generalizing n k with
  | zero => simp [toString36Aux]
  | succ fuel ih =>
    simp only [toString36Aux]
    split
    · simp
    · rename_i hge
      cases k with
      | zero => simp at hn; omega
      | succ k =>
        have h1 : n / 36 < 36 ^ (k + 1) := by
          rw [Nat.div_lt_iff_lt_mul (by decide)]
          rw [pow_succ] at hn
          exact hn
        have := ih (n / 36) k h1
        simp only [List.length_append, List.length_singleton]
        omega

theorem toString36_uint32_length (n : Nat) (hn : n < 2 ^ 32) :
    1 ≤ (toString36 n).data.length ∧ (toString36 n).data.length ≤ 7 := by
  refine ⟨toString36Aux_length_pos n n, ?_⟩
  apply toString36Aux_length_le (n + 1) n 6
  have : (2 : Nat) ^ 32 < 36 ^ 7 := by decide
  omega

/-- The result of `cryptoRandomId` has between 4 and 24 characters, all of them
base-36 digits. -/
theorem cryptoRandomId_shape (w : Nat × Nat × Nat × Nat) :
    4 ≤ (cryptoRandomId w).length ∧ (cryptoRandomId w).length ≤ 24 ∧
      ∀ c ∈ (cryptoRandomId w).data, isBase36Digit c = true := by
  obtain ⟨w0, w1, w2, w3⟩ := w
  have h0 := toString36_uint32_length (w0 % 2 ^ 32) (Nat.mod_lt _ (by decide))
  have h1 := toString36_uint32_length (w1 % 2 ^ 32) (Nat.mod_lt _ (by decide))
  have h2 := toString36_uint32_length (w2 % 2 ^ 32) (Nat.mod_lt _ (by decide))
  have h3 := toString36_uint32_length (w3 % 2 ^ 32) (Nat.mod_lt _ (by decide))
  simp only [cryptoRandomId, slice0, join, getRandomValues, List.map, List.foldr,
    String.length, List.length_take, List.length_append, List.append_nil]
  refine ⟨by omega, by omega, ?_⟩
  intro c hc
  have hc2 := List.mem_of_mem_take hc
  simp only [List.mem_append, toString36] at hc2
  rcases hc2 with h | h | h | h <;> exact toString36Aux_digits _ _ c h

/-! ## Facts about the object URLs -/

/-- Function `downloadFile` revokes every object URL it creates. -/
theorem downloadFile_accounted (db : ObjectStore) (item : FileEntry) (url : String) :
    handlesAccounted (downloadFile db item url) = true := by
  unfold downloadFile
  cases db.get item.id <;> simp [handlesAccounted]

/-- When the preview window opens, `previewImage` registers the revocation of the
object URL on the `beforeunload` event of that window. -/
theorem previewImage_opened_accounted (db : ObjectStore) (item : FileEntry) (url : String) :
    handlesAccounted (previewImage db item url true) = true := by
  unfold previewImage
  cases db.get item.id <;> simp [handlesAccounted]

/-- When `window.open` returns no window, the object URL created for a stored
record is neither revoked nor given a revocation callback. -/
theorem previewImage_blocked_leaks (db : ObjectStore) (item rec : FileEntry) (url : String)
    (h : db.get item.id = some rec) :
    handlesAccounted (previewImage db item url false) = false := by
  unfold previewImage
  rw [h]
  simp [handlesAccounted]

/-! ## Listing -/

/-- C1: when the `addFileEntry` calls for the entries `es` all resolve, starting
from the empty store, `getAllFiles` resolves with a permutation of `es` (so with
exactly `es.length` entries, each once) in which `createdAt` never increases; and
for three entries created at t=100, t=200 and t=150, in this order, it returns
the second, the third, the first. -/
theorem getAllFiles_after_creates (es : List FileEntry) (db : ObjectStore)
    (h : addAll ObjectStore.empty es = .ok db) :
    ∃ l, getAllFiles db = .ok l ∧ l.Perm es ∧ l.length = es.length ∧
      l.Pairwise (fun x y => x.createdAt ≥ y.createdAt) ∧
      ∀ a b c, es = [a, b, c] → a.createdAt = 100 → b.createdAt = 200 →
        c.createdAt = 150 → l = [b, c, a] := by
  have hperm : (db.insertionSort newestFirst).Perm es := by
    have h1 := addAll_perm _ _ _ h
    rw [ObjectStore.empty, List.append_nil] at h1
    exact (List.perm_insertionSort newestFirst db).trans h1
  have hsorted : (db.insertionSort newestFirst).Pairwise
      (fun x y => x.createdAt ≥ y.createdAt) := by
    refine (List.sorted_insertionSort newestFirst db).imp ?_
    intro x y hxy
    unfold newestFirst at hxy
    omega
  refine ⟨_, getAllFiles_eq db, hperm, hperm.length_eq, hsorted, ?_⟩
  intro a b c hes ha hb hc
  subst hes
  have hp : (db.insertionSort newestFirst).Perm [b, c, a] :=
    hperm.trans (@List.perm_append_comm _ [a] [b, c])
  have hne : (db.insertionSort newestFirst).Pairwise
      (fun x y => x.createdAt ≠ y.createdAt) := by
    refine (hp.pairwise_iff ?_).2 ?_
    · intro x y hxy; exact fun heq => hxy heq.symm
    · simp [ha, hb, hc]
  haveI : IsAntisymm FileEntry (fun x y => x.createdAt > y.createdAt) :=
    ⟨fun x y h1 h2 => absurd h1 (by omega)⟩
  have hs : (db.insertionSort newestFirst).Sorted
      (fun x y => x.createdAt > y.createdAt) := by
    refine (hsorted.and hne).imp ?_
    intro x y hxy
    omega
  refine List.eq_of_perm_of_sorted hp hs ?_
  simp [List.Sorted, ha, hb, hc]

/-- C1, at the scenario a.txt (10 bytes, t=100), b.txt (20 bytes, t=200),
c.txt (5 bytes, t=150): the listing is [b.txt, c.txt, a.txt] and the reported
total size is 35. -/
theorem getAllFiles_after_creates_witness :
    addAll ObjectStore.empty [entryA, entryB, entryC] = .ok [entryA, entryB, entryC] ∧
    (∃ l, getAllFiles [entryA, entryB, entryC] = .ok l ∧ l = [entryB, entryC, entryA]) ∧
    renderList [entryA, entryB, entryC] "" = .ok ⟨[entryB, entryC, entryA], 3, 35⟩ := by
  refine ⟨by decide, ?_, by decide⟩
  obtain ⟨l, h1, _, _, _, h5⟩ :=
    getAllFiles_after_creates [entryA, entryB, entryC] [entryA, entryB, entryC] (by decide)
  exact ⟨l, h1, h5 entryA entryB entryC rfl rfl rfl rfl⟩

/-- C2 (as stated, refuted): "zz" is added first and "aa" second, both with
createdAt = 100; `getAllFiles` returns "aa" before "zz", so the entry created
earlier does not come first. -/
theorem getAllFiles_ties_not_insertion_order :
    addFileEntry ObjectStore.empty tieFirst = .ok (true, [tieFirst]) ∧
    addFileEntry [tieFirst] tieSecond = .ok (true, [tieSecond, tieFirst]) ∧
    tieFirst.createdAt = tieSecond.createdAt ∧
    getAllFiles [tieSecond, tieFirst] = .ok [tieSecond, tieFirst] ∧
    ¬ List.Sublist [tieFirst, tieSecond] [tieSecond, tieFirst] := by
  decide

/-- C2 (amended): in a store whose records are in key order (`ObjectStore.WF`,
which holds of every store reached from the empty one, see `run_WF` and
`addAll_WF`), two stored entries with equal createdAt are returned by
`getAllFiles` in ascending order of their id: the entry with the smaller key
comes first. -/
theorem getAllFiles_ties_in_key_order (db : ObjectStore) (hwf : db.WF) (a b : FileEntry)
    (ha : a ∈ db) (hb : b ∈ db) (ht : a.createdAt = b.createdAt)
    (hk : keyLt a.id b.id = true) :
    ∃ l, getAllFiles db = .ok l ∧ List.Sublist [a, b] l := by
  refine ⟨_, getAllFiles_eq db, ?_⟩
  apply List.pair_sublist_insertionSort
  · unfold newestFirst; omega
  · exact pair_sublist_of_WF db hwf a b ha hb hk

/-- C2 (amended), at the store holding "aa" and "zz", both created at t=100. -/
theorem getAllFiles_ties_in_key_order_witness :
    ∃ l, getAllFiles [tieSecond, tieFirst] = .ok l ∧
      List.Sublist [tieSecond, tieFirst] l :=
  getAllFiles_ties_in_key_order [tieSecond, tieFirst] (by decide) tieSecond tieFirst
    (by decide) (by decide) (by decide) (by decide)

/-! ## Search -/

/-- The scenario of the search for "report" among "Report.PDF" and "image.png". -/
theorem search_report_example :
    search [entryImage, entryReport] "report" = .ok [entryReport] := by
  decide

/-! ## Round trip -/

/-- C4: when the id generated for an upload is not yet a key of the store,
`handleFilesUpload` stores the entry without alert, and `store.get` of that id
returns a record whose blob is the uploaded file (same bytes), whose size is the
size of the file, and whose name is the name of the file. -/
theorem upload_then_get (db : ObjectStore) (u : Upload)
    (hfresh : db.get (cryptoRandomId u.random) = none) :
    ∃ db1 rec, handleFilesUpload db [u] = (db1, []) ∧
      db1.get (cryptoRandomId u.random) = some rec ∧
      rec.blob = u.file ∧ rec.blob.bytes = u.file.bytes ∧
      rec.size = u.file.size ∧ rec.size = u.file.bytes.length ∧
      rec.name = u.file.name := by
  have hid : (mkEntry u).id = cryptoRandomId u.random := rfl
  have hadd : addFileEntry db (mkEntry u) = .ok (true, ObjectStore.place (mkEntry u) db) :=
    (addFileEntry_ok_iff db _ (mkEntry u) true).2 ⟨rfl, by rw [hid]; exact hfresh, rfl⟩
  refine ⟨ObjectStore.place (mkEntry u) db, mkEntry u, ?_, ?_, rfl, rfl, rfl, rfl, rfl⟩
  · simp only [handleFilesUpload, hadd]
  · rw [← hid]
    apply get_place
    rw [← get_eq_none_iff, hid]
    exact hfresh

/-- C4, at the upload of "new.txt" (bytes 7, 8, 9) into the store holding
"a.txt": the record read back under the key "0000" carries the same bytes. -/
theorem upload_then_get_witness :
    ∃ db1 rec, handleFilesUpload [entryA] [zeroUpload] = (db1, []) ∧
      db1.get (cryptoRandomId zeroUpload.random) = some rec ∧
      rec.blob = newFile ∧ rec.blob.bytes = [7, 8, 9] ∧
      rec.size = newFile.size ∧ rec.size = 3 ∧ rec.name = "new.txt" :=
  upload_then_get [entryA] zeroUpload (by decide)

/-! ## Deletion -/

/-- C5: on a store whose records are in key order (`ObjectStore.WF`, which holds
of every store reached from the empty one, see `run_WF`), `deleteFile` resolves,
and in the resulting store a lookup of the id finds no record, a lookup of any
other key finds what it found before, and the number of records has dropped by
exactly one when the id was stored (by none otherwise). -/
theorem deleteFile_removes_only_id (db : ObjectStore) (id : String) (hwf : db.WF) :
    ∃ db1, deleteFile db id = .ok (true, db1) ∧ db1.get id = none ∧
      (∀ k, k ≠ id → db1.get k = db.get k) ∧
      db1.length + (if (db.get id).isSome then 1 else 0) = db.length :=
  ⟨db.delete id, rfl, get_delete_self db id,
    fun k hk => get_delete_other db id k hk, delete_length db id hwf⟩

/-- C5, at the store holding "a.txt", "b.txt", "c.txt" and the key of "b.txt":
"b.txt" is gone, "a.txt" is still found, two records remain. -/
theorem deleteFile_removes_only_id_witness :
    ∃ db1, deleteFile [entryA, entryB, entryC] "k2" = .ok (true, db1) ∧
      db1.get "k2" = none ∧ db1.get "k1" = some entryA ∧ db1.length + 1 = 3 := by
  obtain ⟨db1, h1, h2, h3, h4⟩ :=
    deleteFile_removes_only_id [entryA, entryB, entryC] "k2" (by decide)
  refine ⟨db1, h1, h2, ?_, ?_⟩
  · rw [h3 "k1" (by decide)]
    decide
  · have h5 : (ObjectStore.get [entryA, entryB, entryC] "k2").isSome = true := by decide
    rw [h5] at h4
    exact h4

/-- C6 (as stated, refuted): deleting the key "nope", which is not stored, resolves
with `true`, the very value with which deleting the stored key "k1" resolves:
the absence of the record is not reported. -/
theorem deleteFile_absent_same_as_success :
    ObjectStore.get [entryA] "nope" = none ∧
    deleteFile [entryA] "nope" = .ok (true, [entryA]) ∧
    ObjectStore.get [entryA] "k1" = some entryA ∧
    deleteFile [entryA] "k1" = .ok (true, []) ∧
    (deleteFile [entryA] "nope").map Prod.fst = (deleteFile [entryA] "k1").map Prod.fst := by
  decide

/-- C6 (amended): for an id that is not stored, `deleteFile` does not reject; it
resolves with `true`, as a successful deletion does, and the store is unchanged. -/
theorem deleteFile_absent_resolves (db : ObjectStore) (id : String)
    (habs : db.get id = none) : deleteFile db id = .ok (true, db) := by
  unfold deleteFile
  rw [delete_absent db id habs]

/-- C6 (amended), at the store holding "a.txt" and the key "nope". -/
theorem deleteFile_absent_resolves_witness :
    deleteFile [entryA] "nope" = .ok (true, [entryA]) :=
  deleteFile_absent_resolves [entryA] "nope" (by decide)

/-! ## Identifiers -/

/-- C7: in the store reached from the empty store by any sequence of uploads
(any files, any words of the random source, any clock readings), deletions and
clears, the ids of the records are pairwise distinct. -/
theorem reachable_ids_distinct (ops : List Op) :
    ((run ops).map (fun r => r.id)).Nodup ∧
      (run ops).Pairwise (fun a b => a.id ≠ b.id) := by
  have h := WF_nodup_ids (run ops) (run_WF ops)
  exact ⟨h, by rw [List.Nodup, List.pairwise_map] at h; exact h⟩

/-- C8 (as stated, refuted): the store holds "old.txt" under the key "0000" and
the id generated for "new.txt" is "0000"; `handleFilesUpload` leaves the store
as it was and alerts, so "new.txt" is not stored under any id. -/
theorem upload_collision_not_retried :
    cryptoRandomId zeroUpload.random = "0000" ∧
    ObjectStore.get [entryZero] "0000" = some entryZero ∧
    addFileEntry [entryZero] (mkEntry zeroUpload) = .error .ConstraintError ∧
    handleFilesUpload [entryZero] [zeroUpload] =
      ([entryZero], ["Failed to save file: new.txt"]) ∧
    (∀ r ∈ (handleFilesUpload [entryZero] [zeroUpload]).1, r.name ≠ "new.txt") := by
  decide

/-- C8 (amended): when the id generated for an upload is already a key of the
store, `addFileEntry` rejects with `ConstraintError`, `handleFilesUpload` alerts
"Failed to save file: " followed by the name and goes on with the remaining
files from the same store: nothing is stored for that upload and the record
under the colliding id stays as it was. -/
theorem upload_collision_alerts (db : ObjectStore) (u : Upload) (us : List Upload)
    (rec : FileEntry) (hcol : db.get (cryptoRandomId u.random) = some rec) :
    addFileEntry db (mkEntry u) = .error .ConstraintError ∧
    handleFilesUpload db [u] = (db, ["Failed to save file: " ++ u.file.name]) ∧
    handleFilesUpload db (u :: us) =
      ((handleFilesUpload db us).1,
        ("Failed to save file: " ++ u.file.name) :: (handleFilesUpload db us).2) ∧
    (handleFilesUpload db [u]).1.get (cryptoRandomId u.random) = some rec := by
  have hid : (mkEntry u).id = cryptoRandomId u.random := rfl
  have hadd : addFileEntry db (mkEntry u) = .error .ConstraintError :=
    (addFileEntry_error_iff db (mkEntry u) _).2 (by rw [hid, hcol]; rfl)
  refine ⟨hadd, ?_, ?_, ?_⟩
  · simp only [handleFilesUpload, hadd]
  · simp only [handleFilesUpload, hadd]
  · simp only [handleFilesUpload, hadd]
    exact hcol

/-- C8 (amended), at the store holding "old.txt" under "0000" and the upload of
"new.txt" whose generated id is "0000". -/
theorem upload_collision_alerts_witness :
    addFileEntry [entryZero] (mkEntry zeroUpload) = .error .ConstraintError ∧
    handleFilesUpload [entryZero] [zeroUpload] =
      ([entryZero], ["Failed to save file: " ++ zeroUpload.file.name]) ∧
    handleFilesUpload [entryZero] (zeroUpload :: []) =
      ((handleFilesUpload [entryZero] []).1,
        ("Failed to save file: " ++ zeroUpload.file.name) ::
          (handleFilesUpload [entryZero] []).2) ∧
    (handleFilesUpload [entryZero] [zeroUpload]).1.get (cryptoRandomId zeroUpload.random)
      = some entryZero :=
  upload_collision_alerts [entryZero] zeroUpload [] entryZero (by decide)

/-! ## Object URLs -/

/-- C9 (the code at the failing input): for the stored record "image.png", when
`window.open` returns no window, `previewImage` creates the object URL, alerts
and returns; the URL is neither revoked nor given a revocation callback. -/
theorem previewImage_popup_blocked_trace :
    previewImage [entryImage] entryImage "blob:1" false =
      [.createObjectURL "blob:1" entryImage.blob, .windowOpen false,
       .alert "Popup blocked — allow popups to preview."] ∧
    handlesAccounted (previewImage [entryImage] entryImage "blob:1" false) = false ∧
    handlesAccounted (previewImage [entryImage] entryImage "blob:1" true) = true ∧
    handlesAccounted (downloadFile [entryImage] entryImage "blob:1") = true := by
  decide

/-- C10 (the code at the failing inputs): with four zero words the id is "0000",
of 4 characters; with four words 4294967295 it is the first 24 characters of
"1z141z3" written four times. Neither has 16 characters. -/
theorem cryptoRandomId_length_not_16 :
    cryptoRandomId (0, 0, 0, 0) = "0000" ∧
    (cryptoRandomId (0, 0, 0, 0)).length = 4 ∧
    cryptoRandomId (4294967295, 4294967295, 4294967295, 4294967295)
      = "1z141z31z141z31z141z31z1" ∧
    (cryptoRandomId (4294967295, 4294967295, 4294967295, 4294967295)).length = 24 := by
  decide

end GDrive
